import Mathlib

/-!
Verification of the SDK install pipeline of `src/utils/sdkUtils.ts`
(oniro-vscode-ext): progress budgeting, download error paths, component
budget partitioning, archive filename/strip table, checksum verification,
temp-workspace cleanup, and zip permission restoration.

Numbers in the TypeScript source are IEEE doubles; the arithmetic the
progress logic performs (sums, divisions, `Math.round`, `Math.min`,
`Math.max`) is modelled exactly over `ℚ`, with `Math.round` being
Mathlib's `round` (both round half toward positive infinity).
-/

/-! ### Progress budgeting (extractZipWithProgress lines 44-105, downloadFile lines 507-568) -/

/-- `const s = Math.max(0, Math.min(100, start))` (sdkUtils.ts line 44 / 507). -/
def clampStart (start : ℚ) : ℚ := max 0 (min 100 start)

/-- `const r = Math.max(0, Math.min(100 - s, range))` (sdkUtils.ts line 45 / 508). -/
def clampRange (start range : ℚ) : ℚ := max 0 (min (100 - clampStart start) range)

/-- `Math.min(100, Math.round(s + frac * r))` (sdkUtils.ts line 88 / 548). -/
def overallOf (s r frac : ℚ) : ℤ := min 100 (round (s + frac * r))

/-- State of one progress-budgeted sub-operation: `lastOverall` plus the trace of
`increment` values passed to `progress.report` so far, in order. -/
structure PState where
  last : ℤ
  reports : List ℤ
deriving DecidableEq

/-- `let lastOverall = Math.round(s)` (sdkUtils.ts line 48 / 539), no reports yet. -/
def initState (s : ℚ) : PState := ⟨round s, []⟩

/-- One local-progress update (sdkUtils.ts lines 87-96 / 547-556): compute
`overall`, report `overall - lastOverall` if positive (updating `lastOverall`),
else report an increment of `0`. -/
def reportStep (s r : ℚ) (st : PState) (frac : ℚ) : PState :=
  let overall := overallOf s r frac
  if st.last < overall then ⟨overall, st.reports ++ [overall - st.last]⟩
  else ⟨st.last, st.reports ++ [0]⟩

/-- The closing report (sdkUtils.ts lines 100-105 / 562-568): emit
`endOverall - lastOverall` only if positive; no zero report here. -/
def closeStep (s r : ℚ) (st : PState) : PState :=
  let endOverall : ℤ := min 100 (round (s + r))
  if st.last < endOverall then ⟨endOverall, st.reports ++ [endOverall - st.last]⟩ else st

/-- The local fractions driving `extractZipWithProgress`: `processed / total` with
`total = files.length || 1` (sdkUtils.ts lines 41, 82, 87-88). -/
def extractFracs (n : ℕ) : List ℚ :=
  (List.range n).map (fun i => ((i + 1 : ℕ) : ℚ) / ((max n 1 : ℕ) : ℚ))

/-- `extractZipWithProgress` progress behaviour for an archive of `n` entries:
clamp the budget, fold the per-entry reports, then run the closing report. -/
def extractRun (start range : ℚ) (n : ℕ) : PState :=
  closeStep (clampStart start) (clampRange start range)
    ((extractFracs n).foldl (reportStep (clampStart start) (clampRange start range))
      (initState (clampStart start)))

/-- Running byte totals: `downloaded += chunk.length` (sdkUtils.ts line 543). -/
def runningTotals (acc : ℕ) : List ℕ → List ℕ
  | [] => []
  | c :: cs => (acc + c) :: runningTotals (acc + c) cs

/-- `downloadFile` streaming reports: one report per data chunk, guarded by
`if (progress && total)` (sdkUtils.ts lines 541-558), with
`frac = downloaded / total`. -/
def streamState (s r : ℚ) (total : ℕ) (chunks : List ℕ) : PState :=
  if total = 0 then initState s
  else ((runningTotals 0 chunks).map (fun d : ℕ => (d : ℚ) / (total : ℚ))).foldl
    (reportStep s r) (initState s)

/-- The emitted overall values: running sum of the reported increments starting
from `base = round(start)`, recorded at each strictly positive report. -/
def emittedFrom (base : ℤ) : List ℤ → List ℤ
  | [] => []
  | inc :: rest =>
    if 0 < inc then (base + inc) :: emittedFrom (base + inc) rest
    else emittedFrom base rest

/-! ### downloadFile outcome paths (sdkUtils.ts lines 493-593) -/

/-- `new Error('Download cancelled')` message (sdkUtils.ts lines 518, 576, 590). -/
def cancelMsg : String := "Download cancelled"

/-- The non-200 failure message (sdkUtils.ts lines 526, 533). -/
def statusMsg (url : String) (status : ℕ) : String :=
  "Failed to get '" ++ url ++ "' (" ++ toString status ++ ")"

/-- What the network does during one `downloadFile` call: the abort signal is
already set at entry; or the request errors out (connection reset, DNS failure);
or a response arrives with a status, a `content-length` `total`, a list of data
chunk sizes, and optionally an abort firing after `k` chunks. -/
inductive DlScenario where
  | preAborted
  | reqError (msg : String)
  | response (status : ℕ) (total : ℕ) (chunks : List ℕ) (abortAfter : Option ℕ)
deriving DecidableEq

/-- Observable outcome of one `downloadFile` call. -/
structure DlResult where
  outcome : Except String Unit
  fileCreated : Bool
  fileClosed : Bool
  fileDeleted : Bool
  respDestroyed : Bool
  reports : List ℤ

/-- `downloadFile` (sdkUtils.ts lines 493-593) as a function of the network
scenario. Paths:
- aborted at entry (line 517): reject with the cancel error before the
  destination file is even created;
- request 'error' event (lines 579-584): `file.close()`, `fs.unlink(dest)`,
  reject with the underlying error;
- `statusCode !== 200` (lines 525-535): destroy response, close file,
  `fs.unlink(dest)`, reject with the status message;
- 200 and abort during streaming (lines 572-577): reports for the chunks
  received so far, then destroy response, close file, unlink, cancel error;
- 200 to completion (lines 541-570): per-chunk reports, closing report on
  'finish', file closed and kept. -/
def runDownload (url : String) (start range : ℚ) (sc : DlScenario) : DlResult :=
  let s := clampStart start
  let r := clampRange start range
  match sc with
  | .preAborted => ⟨.error cancelMsg, false, false, false, false, []⟩
  | .reqError msg => ⟨.error msg, true, true, true, false, []⟩
  | .response status total chunks abortAfter =>
    if status ≠ 200 then ⟨.error (statusMsg url status), true, true, true, true, []⟩
    else
      match abortAfter with
      | some k => ⟨.error cancelMsg, true, true, true, true,
          (streamState s r total (chunks.take k)).reports⟩
      | none => ⟨.ok (), true, true, false, false,
          (closeStep s r (streamState s r total chunks)).reports⟩

/-! ### Invariants of the progress budgeting logic -/

theorem round_mono_rat {x y : ℚ} (h : x ≤ y) : round x ≤ round y := by
  rw [round_eq, round_eq]
  exact Int.floor_le_floor (by linarith)

theorem round_hundred : round ((100 : ℚ)) = 100 := by
  rw [show ((100 : ℚ)) = ((100 : ℤ) : ℚ) by norm_num, round_intCast]

/-- Invariant carried through a progress-budgeted run: `lastOverall` is the
running sum of the reported increments on top of `round s`, every reported
increment is nonnegative, and `lastOverall` never exceeds the end of the
clamped budget. -/
def PInv (s r : ℚ) (st : PState) : Prop :=
  st.last = round s + st.reports.sum ∧ (∀ i ∈ st.reports, 0 ≤ i) ∧
    st.last ≤ min 100 (round (s + r))

theorem pinv_init (s r : ℚ) (hs : s ≤ 100) (hr : 0 ≤ r) : PInv s r (initState s) := by
  refine ⟨by simp [initState], by simp [initState], ?_⟩
  have h1 : round s ≤ 100 := by
    have h := round_mono_rat (y := (100 : ℚ)) hs
    rwa [round_hundred] at h
  have h2 : round s ≤ round (s + r) := round_mono_rat (by linarith)
  simpa [initState] using le_min h1 h2

theorem pinv_reportStep (s r : ℚ) (hr : 0 ≤ r) (f : ℚ) (hf1 : f ≤ 1)
    (st : PState) (h : PInv s r st) : PInv s r (reportStep s r st f) := by
  obtain ⟨h1, h2, h3⟩ := h
  unfold reportStep
  have hole : overallOf s r f ≤ min 100 (round (s + r)) := by
    have hfr : s + f * r ≤ s + r := by nlinarith
    exact min_le_min le_rfl (round_mono_rat hfr)
  by_cases hlt : st.last < overallOf s r f
  · simp only [if_pos hlt]
    refine ⟨by simp [List.sum_append]; omega, ?_, hole⟩
    intro i hi
    rcases List.mem_append.mp hi with hi | hi
    · exact h2 i hi
    · simp at hi; omega
  · simp only [if_neg hlt]
    refine ⟨by simp [List.sum_append]; omega, ?_, h3⟩
    intro i hi
    rcases List.mem_append.mp hi with hi | hi
    · exact h2 i hi
    · simp at hi; omega

theorem pinv_foldl (s r : ℚ) (hr : 0 ≤ r) (fracs : List ℚ)
    (hf : ∀ f ∈ fracs, f ≤ 1) (st : PState) (h : PInv s r st) :
    PInv s r (fracs.foldl (reportStep s r) st) := by
  induction fracs generalizing st with
  | nil => simpa using h
  | cons f fs ih =>
    simp only [List.foldl_cons]
    exact ih (fun g hg => hf g (by simp [hg])) _
      (pinv_reportStep s r hr f (hf f (by simp)) st h)

theorem pinv_closeStep (s r : ℚ) (st : PState) (h : PInv s r st) :
    PInv s r (closeStep s r st) := by
  obtain ⟨h1, h2, h3⟩ := h
  unfold closeStep
  by_cases hlt : st.last < min 100 (round (s + r))
  · simp only [if_pos hlt]
    refine ⟨by simp [List.sum_append]; omega, ?_, le_refl _⟩
    intro i hi
    rcases List.mem_append.mp hi with hi | hi
    · exact h2 i hi
    · simp at hi; omega
  · simp only [if_neg hlt]
    exact ⟨h1, h2, h3⟩

/-- After the closing report, `lastOverall` sits exactly at the end of the
clamped budget. -/
theorem closeStep_last (s r : ℚ) (st : PState)
    (h3 : st.last ≤ min 100 (round (s + r))) :
    (closeStep s r st).last = min 100 (round (s + r)) := by
  unfold closeStep
  by_cases hlt : st.last < min 100 (round (s + r))
  · simp only [if_pos hlt]
  · simp only [if_neg hlt]
    omega

theorem extractFracs_le_one (n : ℕ) : ∀ f ∈ extractFracs n, f ≤ 1 := by
  intro f hf
  simp only [extractFracs, List.mem_map, List.mem_range] at hf
  obtain ⟨i, hi, rfl⟩ := hf
  have hd : (0 : ℚ) < ((max n 1 : ℕ) : ℚ) := by
    have h : (0 : ℕ) < max n 1 := by omega
    exact_mod_cast h
  rw [div_le_one hd]
  have h : i + 1 ≤ max n 1 := by omega
  exact_mod_cast h

theorem runningTotals_le (l : List ℕ) : ∀ acc, ∀ d ∈ runningTotals acc l, d ≤ acc + l.sum := by
  induction l with
  | nil => simp [runningTotals]
  | cons c cs ih =>
    intro acc d hd
    simp only [runningTotals, List.mem_cons] at hd
    rcases hd with rfl | hd
    · simp only [List.sum_cons]
      omega
    · have := ih (acc + c) d hd
      simp only [List.sum_cons]
      omega

theorem pinv_streamState (s r : ℚ) (hs : s ≤ 100) (hr : 0 ≤ r) (total : ℕ)
    (chunks : List ℕ) (hc : chunks.sum ≤ total) :
    PInv s r (streamState s r total chunks) := by
  unfold streamState
  by_cases ht : total = 0
  · simpa [ht] using pinv_init s r hs hr
  · simp only [if_neg ht]
    apply pinv_foldl s r hr _ _ _ (pinv_init s r hs hr)
    intro f hf
    obtain ⟨d, hd, rfl⟩ := List.mem_map.mp hf
    have hpos : (0 : ℚ) < (total : ℚ) := by
      have h : 0 < total := Nat.pos_of_ne_zero ht
      exact_mod_cast h
    rw [div_le_one hpos]
    have h1 : d ≤ chunks.sum := by simpa using runningTotals_le chunks 0 d hd
    have h2 : d ≤ total := le_trans h1 hc
    exact_mod_cast h2

theorem sum_take_le (l : List ℕ) (k : ℕ) : (l.take k).sum ≤ l.sum := by
  calc (l.take k).sum ≤ (l.take k).sum + (l.drop k).sum := Nat.le_add_right _ _
    _ = (l.take k ++ l.drop k).sum := (List.sum_append).symm
    _ = l.sum := by rw [List.take_append_drop]

/-! ### Emitted overall values -/

/-- Emitted overall values of a run of `extractZipWithProgress` or
`downloadFile`: running sums of the reported increments on top of
`round(clamped start)`, recorded at the strictly positive reports. -/
def emitsOf (start : ℚ) (reports : List ℤ) : List ℤ :=
  emittedFrom (round (clampStart start)) reports

theorem emittedFrom_gt (base : ℤ) (l : List ℤ) : ∀ v ∈ emittedFrom base l, base < v := by
  induction l generalizing base with
  | nil => simp [emittedFrom]
  | cons i rest ih =>
    intro v hv
    by_cases h : 0 < i
    · simp only [emittedFrom, if_pos h] at hv
      rcases List.mem_cons.mp hv with rfl | hv
      · omega
      · have := ih (base + i) v hv
        omega
    · simp only [emittedFrom, if_neg h] at hv
      exact ih base v hv

theorem emittedFrom_le (base : ℤ) (l : List ℤ) (hl : ∀ i ∈ l, 0 ≤ i) :
    ∀ v ∈ emittedFrom base l, v ≤ base + l.sum := by
  induction l generalizing base with
  | nil => simp [emittedFrom]
  | cons i rest ih =>
    intro v hv
    have hi : 0 ≤ i := hl i (by simp)
    have hrest : ∀ j ∈ rest, 0 ≤ j := fun j hj => hl j (by simp [hj])
    have hsum : 0 ≤ rest.sum := List.sum_nonneg hrest
    by_cases h : 0 < i
    · simp only [emittedFrom, if_pos h] at hv
      rcases List.mem_cons.mp hv with rfl | hv
      · simp only [List.sum_cons]
        omega
      · have := ih (base + i) hrest v hv
        simp only [List.sum_cons]
        omega
    · simp only [emittedFrom, if_neg h] at hv
      have := ih base hrest v hv
      simp only [List.sum_cons]
      omega

theorem emittedFrom_chain (base : ℤ) (l : List ℤ) :
    List.Chain' (· < ·) (emittedFrom base l) := by
  induction l generalizing base with
  | nil => simp [emittedFrom]
  | cons i rest ih =>
    by_cases h : 0 < i
    · simp only [emittedFrom, if_pos h]
      refine List.chain'_cons'.mpr ⟨?_, ih (base + i)⟩
      intro y hy
      exact emittedFrom_gt (base + i) rest y (List.mem_of_mem_head? hy)
    · simp only [emittedFrom, if_neg h]
      exact ih base

/-! ### Clamp arithmetic -/

theorem clampStart_eq {x : ℚ} (h0 : 0 ≤ x) (h1 : x ≤ 100) : clampStart x = x := by
  unfold clampStart
  rw [min_eq_right h1, max_eq_right h0]

theorem clampStart_le_100 (x : ℚ) : clampStart x ≤ 100 := by
  unfold clampStart
  exact max_le (by norm_num) (min_le_left _ _)

theorem clampRange_nonneg (x y : ℚ) : 0 ≤ clampRange x y := le_max_left 0 _

theorem clampRange_int (start range : ℤ) (h0 : 0 ≤ start) (h1 : start ≤ 100) :
    clampRange (start : ℚ) (range : ℚ) = ((max 0 (min (100 - start) range) : ℤ) : ℚ) := by
  unfold clampRange
  rw [clampStart_eq (by exact_mod_cast h0) (by exact_mod_cast h1)]
  push_cast
  rfl

/-- For an integer budget `(start, range)` with `0 ≤ start ≤ 100`, the clamped
end of the budget is `start + max 0 (min (100 - start) range)`. -/
theorem budgetEnd_eq (start range : ℤ) (h0 : 0 ≤ start) (h1 : start ≤ 100) :
    min 100 (round ((start : ℚ) + clampRange (start : ℚ) (range : ℚ)))
      = start + max 0 (min (100 - start) range) := by
  rw [clampRange_int start range h0 h1, ← Int.cast_add, round_intCast]
  omega

/-- For a rational budget with `0 ≤ start ≤ 100` and `0 ≤ range`, the clamped
end of the budget equals `min 100 (round (start + range))`. -/
theorem closeTarget_eq (start range : ℚ) (h0 : 0 ≤ start) (h1 : start ≤ 100)
    (h2 : 0 ≤ range) :
    min 100 (round (start + clampRange start range)) = min 100 (round (start + range)) := by
  unfold clampRange
  rw [clampStart_eq h0 h1]
  by_cases hcase : range ≤ 100 - start
  · rw [min_eq_right hcase, max_eq_right h2]
  · push_neg at hcase
    rw [min_eq_left (le_of_lt hcase), max_eq_right (by linarith)]
    rw [show start + (100 - start) = (100 : ℚ) by ring, round_hundred]
    have hr : (100 : ℤ) ≤ round (start + range) := by
      have h := round_mono_rat (x := (100 : ℚ)) (y := start + range) (by linarith)
      rwa [round_hundred] at h
    omega

/-- Any progress state satisfying the run invariant for an integer budget
emits a non-decreasing sequence of overall values inside `[start, start+range]`. -/
theorem emits_bounds (start range : ℤ) (h0 : 0 ≤ start) (h1 : start ≤ 100)
    (h2 : 0 ≤ range) (st : PState)
    (h : PInv (clampStart (start : ℚ)) (clampRange (start : ℚ) (range : ℚ)) st) :
    List.Chain' (· ≤ ·) (emitsOf (start : ℚ) st.reports) ∧
      ∀ v ∈ emitsOf (start : ℚ) st.reports, start ≤ v ∧ v ≤ start + range := by
  obtain ⟨hsum, hnn, hle⟩ := h
  have hq0 : (0 : ℚ) ≤ (start : ℚ) := by exact_mod_cast h0
  have hq1 : (start : ℚ) ≤ 100 := by exact_mod_cast h1
  have hbase : round (clampStart (start : ℚ)) = start := by
    rw [clampStart_eq hq0 hq1, round_intCast]
  constructor
  · exact (emittedFrom_chain _ _).imp (fun a b hab => le_of_lt hab)
  · intro v hv
    unfold emitsOf at hv
    rw [hbase] at hv
    have hgt := emittedFrom_gt start st.reports v hv
    have hub := emittedFrom_le start st.reports hnn v hv
    rw [clampStart_eq hq0 hq1] at hsum hle
    rw [budgetEnd_eq start range h0 h1] at hle
    rw [round_intCast] at hsum
    omega

/-- Bundled invariant for a completed `extractZipWithProgress` run. -/
theorem pinv_extractRun (start range : ℚ) (n : ℕ) :
    PInv (clampStart start) (clampRange start range) (extractRun start range n) := by
  unfold extractRun
  exact pinv_closeStep _ _ _
    (pinv_foldl _ _ (clampRange_nonneg _ _) _ (extractFracs_le_one n) _
      (pinv_init _ _ (clampStart_le_100 _) (clampRange_nonneg _ _)))

/-- Bundled invariant for the streaming reports of `downloadFile`. -/
theorem pinv_stream (start range : ℚ) (total : ℕ) (chunks : List ℕ)
    (hc : chunks.sum ≤ total) :
    PInv (clampStart start) (clampRange start range)
      (streamState (clampStart start) (clampRange start range) total chunks) :=
  pinv_streamState _ _ (clampStart_le_100 _) (clampRange_nonneg _ _) total chunks hc

/-- C1, counterexample: with the budget `(start, range) = (0, 30.5)` (a legal
input: `downloadFile` and `extractZipWithProgress` accept arbitrary numbers and
only clamp them into `[0, 100]`), extracting a one-entry archive emits the
single overall value `31`, which lies outside `[start, start + range] =
[0, 30.5]`; so the claimed bound fails for non-integer budgets. -/
theorem c1_counterexample :
    emitsOf (0 : ℚ) (extractRun 0 (61 / 2) 1).reports = [31] ∧
      ¬ ((31 : ℚ) ≤ 0 + 61 / 2) := by
  constructor
  · norm_num [extractRun, extractFracs, clampStart, clampRange, initState, reportStep,
      closeStep, overallOf, emitsOf, emittedFrom, round_eq, List.range_succ]
  · norm_num

/-- C1 (amended): for every integer budget `(start, range)` with
`0 ≤ start ≤ 100` and `0 ≤ range` — as at every call site of
`extractZipWithProgress` and `downloadFile` — the sequence of overall progress
values emitted to the sink (the running sum of the reported increments starting
from `round(start)`) is non-decreasing and every emitted value lies in
`[start, start + range]`; for `extractZipWithProgress` this holds for any
number of entries, and for `downloadFile` for any chunk sequence whose bytes
never exceed the declared `Content-Length` total, whether the stream completes
or is aborted after any number of chunks. -/
theorem c1_progress_monotone_bounded (start range : ℤ)
    (h0 : 0 ≤ start) (h1 : start ≤ 100) (h2 : 0 ≤ range)
    (n : ℕ) (url : String) (total : ℕ) (chunks : List ℕ)
    (hc : chunks.sum ≤ total) (abortAfter : Option ℕ) :
    (List.Chain' (· ≤ ·) (emitsOf (start : ℚ) (extractRun start range n).reports) ∧
      ∀ v ∈ emitsOf (start : ℚ) (extractRun start range n).reports,
        start ≤ v ∧ v ≤ start + range) ∧
    (List.Chain' (· ≤ ·) (emitsOf (start : ℚ)
        (runDownload url start range (.response 200 total chunks abortAfter)).reports) ∧
      ∀ v ∈ emitsOf (start : ℚ)
          (runDownload url start range (.response 200 total chunks abortAfter)).reports,
        start ≤ v ∧ v ≤ start + range) := by
  constructor
  · exact emits_bounds start range h0 h1 h2 _ (pinv_extractRun _ _ n)
  · cases abortAfter with
    | none =>
      have hrw : (runDownload url (start : ℚ) (range : ℚ)
          (.response 200 total chunks none)).reports =
          (closeStep (clampStart (start : ℚ)) (clampRange (start : ℚ) (range : ℚ))
            (streamState (clampStart (start : ℚ)) (clampRange (start : ℚ) (range : ℚ))
              total chunks)).reports := by
        simp [runDownload]
      rw [hrw]
      exact emits_bounds start range h0 h1 h2 _
        (pinv_closeStep _ _ _ (pinv_stream _ _ total chunks hc))
    | some k =>
      have hrw : (runDownload url (start : ℚ) (range : ℚ)
          (.response 200 total chunks (some k))).reports =
          (streamState (clampStart (start : ℚ)) (clampRange (start : ℚ) (range : ℚ))
            total (chunks.take k)).reports := by
        simp [runDownload]
      rw [hrw]
      exact emits_bounds start range h0 h1 h2 _
        (pinv_stream _ _ total (chunks.take k) (le_trans (sum_take_le chunks k) hc))

/-- Witness for C1 at the concrete budget `(10, 20)`, a three-entry archive and
a download of 4 declared bytes received as two 2-byte chunks. -/
theorem c1_progress_monotone_bounded_witness :
    ((0 : ℤ) ≤ 10 ∧ (10 : ℤ) ≤ 100 ∧ (0 : ℤ) ≤ 20 ∧ [2, 2].sum ≤ 4) ∧
    ((List.Chain' (· ≤ ·) (emitsOf ((10 : ℤ) : ℚ) (extractRun ((10 : ℤ) : ℚ) ((20 : ℤ) : ℚ) 3).reports) ∧
      ∀ v ∈ emitsOf ((10 : ℤ) : ℚ) (extractRun ((10 : ℤ) : ℚ) ((20 : ℤ) : ℚ) 3).reports,
        (10 : ℤ) ≤ v ∧ v ≤ 10 + 20) ∧
    (List.Chain' (· ≤ ·) (emitsOf ((10 : ℤ) : ℚ)
        (runDownload "https://example.org/f" ((10 : ℤ) : ℚ) ((20 : ℤ) : ℚ)
          (.response 200 4 [2, 2] none)).reports) ∧
      ∀ v ∈ emitsOf ((10 : ℤ) : ℚ)
          (runDownload "https://example.org/f" ((10 : ℤ) : ℚ) ((20 : ℤ) : ℚ)
            (.response 200 4 [2, 2] none)).reports,
        (10 : ℤ) ≤ v ∧ v ≤ 10 + 20)) :=
  ⟨⟨by norm_num, by norm_num, by norm_num, by norm_num⟩,
    c1_progress_monotone_bounded 10 20 (by norm_num) (by norm_num) (by norm_num)
      3 "https://example.org/f" 4 [2, 2] (by norm_num) none⟩

/-- After the closing report, the running total of reported increments sits
exactly at the end of the clamped budget. -/
theorem run_total (s r : ℚ) (st0 : PState) (h : PInv s r st0) :
    round s + (closeStep s r st0).reports.sum = min 100 (round (s + r)) := by
  have hpost := pinv_closeStep s r st0 h
  have hlast := closeStep_last s r st0 h.2.2
  obtain ⟨ha, _, _⟩ := hpost
  omega

/-- C2: after the final (closing) report of a sub-operation that completed
normally, the running total of emitted increments — hence the last emitted
overall value — equals exactly `round(start + range)` clamped to 100, even if
the local percentages never reached 100; and an archive with zero entries
still emits a single closing increment reaching the end of the budget
(whenever the budget end exceeds the starting value, so that there is a gap to
close). This covers `extractZipWithProgress` for any entry count and
`downloadFile` for any completed stream whose bytes do not exceed the declared
total (or whose `Content-Length` is 0, in which case only the closing report
fires). -/
theorem c2_progress_closure (start range : ℚ)
    (h0 : 0 ≤ start) (h1 : start ≤ 100) (h2 : 0 ≤ range)
    (n total : ℕ) (chunks : List ℕ) (url : String)
    (hc : chunks.sum ≤ total ∨ total = 0) :
    round start + (extractRun start range n).reports.sum
        = min 100 (round (start + range)) ∧
    round start + (runDownload url start range
        (.response 200 total chunks none)).reports.sum
        = min 100 (round (start + range)) ∧
    (round start < min 100 (round (start + range)) →
      (extractRun start range 0).reports
        = [min 100 (round (start + range)) - round start]) := by
  have hs := clampStart_eq h0 h1
  have hE := closeTarget_eq start range h0 h1 h2
  have e1 : round (clampStart start) = round start := by rw [hs]
  have e2 : min 100 (round (clampStart start + clampRange start range))
      = min 100 (round (start + range)) := by rw [hs, hE]
  have hstream : PInv (clampStart start) (clampRange start range)
      (streamState (clampStart start) (clampRange start range) total chunks) := by
    rcases hc with hc | hc
    · exact pinv_stream start range total chunks hc
    · subst hc
      unfold streamState
      rw [if_pos rfl]
      exact pinv_init _ _ (clampStart_le_100 _) (clampRange_nonneg _ _)
  refine ⟨?_, ?_, ?_⟩
  · rw [← e1, ← e2]
    unfold extractRun
    exact run_total _ _ _
      (pinv_foldl _ _ (clampRange_nonneg _ _) _ (extractFracs_le_one n) _
        (pinv_init _ _ (clampStart_le_100 _) (clampRange_nonneg _ _)))
  · have hrw : (runDownload url start range (.response 200 total chunks none)).reports =
        (closeStep (clampStart start) (clampRange start range)
          (streamState (clampStart start) (clampRange start range) total chunks)).reports := by
      simp [runDownload]
    rw [hrw, ← e1, ← e2]
    exact run_total _ _ _ hstream
  · intro hlt
    unfold extractRun extractFracs
    simp only [List.range_zero, List.map_nil, List.foldl_nil]
    unfold closeStep initState
    rw [e1, e2, if_pos hlt]
    simp

/-- Witness for C2 at budget `(60, 7)`, a zero-entry archive, and a completed
download of one 5-byte chunk out of 5 declared bytes. -/
theorem c2_progress_closure_witness :
    ((0 : ℚ) ≤ 60 ∧ (60 : ℚ) ≤ 100 ∧ (0 : ℚ) ≤ 7 ∧ ([5] : List ℕ).sum ≤ 5 ∨ (5 : ℕ) = 0) ∧
    (round (60 : ℚ) + (extractRun 60 7 0).reports.sum = min 100 (round ((60 : ℚ) + 7)) ∧
     round (60 : ℚ) + (runDownload "https://example.org/f" 60 7
        (.response 200 5 [5] none)).reports.sum = min 100 (round ((60 : ℚ) + 7)) ∧
     (round (60 : ℚ) < min 100 (round ((60 : ℚ) + 7)) →
       (extractRun 60 7 0).reports = [min 100 (round ((60 : ℚ) + 7)) - round (60 : ℚ)])) := by
  refine ⟨Or.inl ⟨by norm_num, by norm_num, by norm_num, by norm_num⟩, ?_⟩
  exact c2_progress_closure 60 7 (by norm_num) (by norm_num) (by norm_num)
    0 5 [5] "https://example.org/f" (Or.inl (by norm_num))

/-! ### C6: the sink is also invoked with increment 0 -/

theorem reportStep_nonneg (s r f : ℚ) (st : PState)
    (h : ∀ i ∈ st.reports, 0 ≤ i) : ∀ i ∈ (reportStep s r st f).reports, 0 ≤ i := by
  unfold reportStep
  by_cases hlt : st.last < overallOf s r f
  · simp only [if_pos hlt]
    intro i hi
    rcases List.mem_append.mp hi with hi | hi
    · exact h i hi
    · simp at hi
      omega
  · simp only [if_neg hlt]
    intro i hi
    rcases List.mem_append.mp hi with hi | hi
    · exact h i hi
    · simp at hi
      omega

theorem foldl_nonneg (s r : ℚ) (fracs : List ℚ) (st : PState)
    (h : ∀ i ∈ st.reports, 0 ≤ i) :
    ∀ i ∈ (fracs.foldl (reportStep s r) st).reports, 0 ≤ i := by
  induction fracs generalizing st with
  | nil => simpa using h
  | cons f fs ih =>
    simp only [List.foldl_cons]
    exact ih _ (reportStep_nonneg s r f st h)

theorem closeStep_nonneg (s r : ℚ) (st : PState)
    (h : ∀ i ∈ st.reports, 0 ≤ i) : ∀ i ∈ (closeStep s r st).reports, 0 ≤ i := by
  unfold closeStep
  by_cases hlt : st.last < min 100 (round (s + r))
  · simp only [if_pos hlt]
    intro i hi
    rcases List.mem_append.mp hi with hi | hi
    · exact h i hi
    · simp at hi
      omega
  · simp only [if_neg hlt]
    exact h

theorem reportStep_length (s r f : ℚ) (st : PState) :
    (reportStep s r st f).reports.length = st.reports.length + 1 := by
  unfold reportStep
  by_cases hlt : st.last < overallOf s r f
  · simp [if_pos hlt]
  · simp [if_neg hlt]

theorem foldl_length (s r : ℚ) (fracs : List ℚ) (st : PState) :
    (fracs.foldl (reportStep s r) st).reports.length
      = st.reports.length + fracs.length := by
  induction fracs generalizing st with
  | nil => simp
  | cons f fs ih =>
    simp only [List.foldl_cons, List.length_cons]
    rw [ih, reportStep_length]
    omega

theorem closeStep_length_ge (s r : ℚ) (st : PState) :
    st.reports.length ≤ (closeStep s r st).reports.length := by
  unfold closeStep
  by_cases hlt : st.last < min 100 (round (s + r))
  · rw [if_pos hlt]
    simp
  · rw [if_neg hlt]

theorem closeStep_length_le (s r : ℚ) (st : PState) :
    (closeStep s r st).reports.length ≤ st.reports.length + 1 := by
  unfold closeStep
  by_cases hlt : st.last < min 100 (round (s + r))
  · rw [if_pos hlt]
    simp
  · rw [if_neg hlt]
    omega

theorem initState_reports (s : ℚ) : (initState s).reports = [] := rfl

theorem extractFracs_length (n : ℕ) : (extractFracs n).length = n := by
  simp [extractFracs]

theorem runningTotals_length (l : List ℕ) : ∀ acc, (runningTotals acc l).length = l.length := by
  induction l with
  | nil => intro acc; simp [runningTotals]
  | cons c cs ih =>
    intro acc
    simp [runningTotals, ih]

/-- C6, counterexample: extracting a two-entry archive with budget `(0, 1)`
invokes the sink twice — the second entry maps to the unchanged overall value
1, yet a report (with `increment: 0`, sdkUtils.ts line 95) is still issued —
so the sink is not invoked only on strict increases. -/
theorem c6_counterexample : (extractRun 0 1 2).reports = [1, 0] := by
  norm_num [extractRun, extractFracs, clampStart, clampRange, initState, reportStep,
    closeStep, overallOf, round_eq, List.range_succ]

/-- C6 (amended): the sink is invoked for every local-percentage update (one
report per archive entry / data chunk, plus at most one closing report), not
only on strict increases; but every reported increment is nonnegative, an
update whose mapped overall value is unchanged is reported with an increment
of exactly 0, and the running overall value therefore changes only at the
strictly positive reports, at which the emitted overall values are strictly
increasing. -/
theorem c6_report_on_every_update (start range : ℚ) (n : ℕ) (url : String)
    (total : ℕ) (chunks : List ℕ) :
    ((∀ i ∈ (extractRun start range n).reports, 0 ≤ i) ∧
      List.Chain' (· < ·) (emitsOf start (extractRun start range n).reports) ∧
      n ≤ (extractRun start range n).reports.length ∧
      (extractRun start range n).reports.length ≤ n + 1) ∧
    ((∀ i ∈ (runDownload url start range (.response 200 total chunks none)).reports, 0 ≤ i) ∧
      List.Chain' (· < ·)
        (emitsOf start (runDownload url start range (.response 200 total chunks none)).reports) ∧
      (total ≠ 0 →
        chunks.length
          ≤ (runDownload url start range (.response 200 total chunks none)).reports.length)) := by
  have hrw : (runDownload url start range (.response 200 total chunks none)).reports =
      (closeStep (clampStart start) (clampRange start range)
        (streamState (clampStart start) (clampRange start range) total chunks)).reports := by
    simp [runDownload]
  refine ⟨⟨?_, emittedFrom_chain _ _, ?_, ?_⟩, ?_, ?_, ?_⟩
  · unfold extractRun
    exact closeStep_nonneg _ _ _ (foldl_nonneg _ _ _ _ (by simp [initState]))
  · unfold extractRun
    have h1 := closeStep_length_ge (clampStart start) (clampRange start range)
      ((extractFracs n).foldl (reportStep (clampStart start) (clampRange start range))
        (initState (clampStart start)))
    have h2 := foldl_length (clampStart start) (clampRange start range) (extractFracs n)
      (initState (clampStart start))
    rw [extractFracs_length, initState_reports] at h2
    simp only [List.length_nil, Nat.zero_add] at h2
    omega
  · unfold extractRun
    have h1 := closeStep_length_le (clampStart start) (clampRange start range)
      ((extractFracs n).foldl (reportStep (clampStart start) (clampRange start range))
        (initState (clampStart start)))
    have h2 := foldl_length (clampStart start) (clampRange start range) (extractFracs n)
      (initState (clampStart start))
    rw [extractFracs_length, initState_reports] at h2
    simp only [List.length_nil, Nat.zero_add] at h2
    omega
  · rw [hrw]
    apply closeStep_nonneg
    unfold streamState
    by_cases ht : total = 0
    · simp [if_pos ht, initState]
    · rw [if_neg ht]
      exact foldl_nonneg _ _ _ _ (by simp [initState])
  · rw [hrw]
    exact emittedFrom_chain _ _
  · intro ht
    rw [hrw]
    have h1 := closeStep_length_ge (clampStart start) (clampRange start range)
      (streamState (clampStart start) (clampRange start range) total chunks)
    have h2 : (streamState (clampStart start) (clampRange start range) total chunks).reports.length
        = chunks.length := by
      unfold streamState
      rw [if_neg ht, foldl_length]
      simp [initState, runningTotals_length]
    omega

/-- Witness for C6 (amended) at budget `(0, 1)`, two entries, and a download of
two 1-byte chunks out of 2 declared bytes. -/
theorem c6_report_on_every_update_witness :
    (((∀ i ∈ (extractRun 0 1 2).reports, 0 ≤ i) ∧
      List.Chain' (· < ·) (emitsOf 0 (extractRun 0 1 2).reports) ∧
      2 ≤ (extractRun 0 1 2).reports.length ∧
      (extractRun 0 1 2).reports.length ≤ 2 + 1) ∧
    ((∀ i ∈ (runDownload "https://example.org/f" 0 1 (.response 200 2 [1, 1] none)).reports, 0 ≤ i) ∧
      List.Chain' (· < ·)
        (emitsOf 0 (runDownload "https://example.org/f" 0 1 (.response 200 2 [1, 1] none)).reports) ∧
      ((2 : ℕ) ≠ 0 →
        ([1, 1] : List ℕ).length
          ≤ (runDownload "https://example.org/f" 0 1 (.response 200 2 [1, 1] none)).reports.length))) :=
  c6_report_on_every_update 0 1 2 "https://example.org/f" 2 [1, 1]

/-! ### C3: component budget partition (downloadAndInstallSdk lines 749-777) -/

/-- `const componentsBudget = 35` (sdkUtils.ts line 751). -/
def componentsBudget : ℕ := 35

/-- The per-archive allocation loop (sdkUtils.ts lines 764-774): each archive
gets `thisBudget = base + (rem > 0 ? 1 : 0)`, and `rem` is decremented while
positive. -/
def allocLoop (base : ℕ) : ℕ → ℕ → List ℕ
  | _, 0 => []
  | rem, k + 1 => (base + if 0 < rem then 1 else 0) :: allocLoop base (rem - 1) k

/-- `base = n > 0 ? Math.floor(budget / n) : 0` and
`rem = n > 0 ? budget % n : 0` (sdkUtils.ts lines 760-761), then one
`thisBudget` per component zip. -/
def componentBudgets (budget n : ℕ) : List ℕ :=
  allocLoop (if 0 < n then budget / n else 0) (if 0 < n then budget % n else 0) n

/-- The components phase as overall-progress increments: with zero component
zips a single report of the whole budget is issued (sdkUtils.ts lines
754-755), otherwise each archive consumes exactly its allocated sub-budget
(which its extraction run does, by the closure property of the allocator). -/
def componentIncrements (n : ℕ) : List ℕ :=
  if n = 0 then [componentsBudget] else componentBudgets componentsBudget n

theorem allocLoop_sum (base : ℕ) (k : ℕ) :
    ∀ rem, (allocLoop base rem k).sum = base * k + min rem k := by
  induction k with
  | zero => intro rem; simp [allocLoop]
  | succ k ih =>
    intro rem
    simp only [allocLoop, List.sum_cons, ih (rem - 1), Nat.mul_succ]
    rcases Nat.eq_zero_or_pos rem with h | h
    · subst h
      rw [if_neg (by omega)]
      omega
    · rw [if_pos h]
      omega

theorem allocLoop_length (base : ℕ) (k : ℕ) :
    ∀ rem, (allocLoop base rem k).length = k := by
  induction k with
  | zero => intro rem; simp [allocLoop]
  | succ k ih =>
    intro rem
    simp [allocLoop, ih (rem - 1)]

theorem allocLoop_getD (base : ℕ) (k : ℕ) :
    ∀ rem i, i < k →
      (allocLoop base rem k).getD i 0 = base + if i < rem then 1 else 0 := by
  induction k with
  | zero => intro rem i hi; omega
  | succ k ih =>
    intro rem i hi
    cases i with
    | zero =>
      simp only [allocLoop, List.getD]
      simp
    | succ j =>
      simp only [allocLoop]
      have hj : j < k := by omega
      have h := ih (rem - 1) j hj
      simp only [List.getD_cons_succ]
      rw [h]
      have : (if j < rem - 1 then 1 else 0) = if j + 1 < rem then (1 : ℕ) else 0 := by
        split_ifs <;> omega
      rw [this]

/-- C3: the components phase of `downloadAndInstallSdk` always consumes its
budget of 35 exactly: for `n = 0` a single increment of exactly 35 is
reported, and for every `n ≥ 1` the `n` individually allocated sub-budgets —
`floor(35/n)` each plus one extra point for each of the first `35 mod n`
archives — sum to exactly 35. -/
theorem c3_budget_partition (n : ℕ) :
    (componentIncrements n).sum = componentsBudget ∧
    componentIncrements 0 = [35] ∧
    (1 ≤ n →
      (componentBudgets componentsBudget n).length = n ∧
      ∀ i, i < n →
        (componentBudgets componentsBudget n).getD i 0
          = componentsBudget / n + if i < componentsBudget % n then 1 else 0) := by
  refine ⟨?_, rfl, ?_⟩
  · unfold componentIncrements
    by_cases h : n = 0
    · rw [if_pos h]
      simp [componentsBudget]
    · rw [if_neg h]
      unfold componentBudgets
      rw [if_pos (by omega), if_pos (by omega), allocLoop_sum]
      have hlt : componentsBudget % n < n := Nat.mod_lt _ (by omega)
      have hdm := Nat.div_add_mod componentsBudget n
      rw [min_eq_left (le_of_lt hlt), Nat.mul_comm]
      omega
  · intro h1
    refine ⟨?_, ?_⟩
    · unfold componentBudgets
      rw [if_pos (by omega), if_pos (by omega)]
      exact allocLoop_length _ _ _
    · intro i hi
      unfold componentBudgets
      rw [if_pos (by omega), if_pos (by omega)]
      exact allocLoop_getD _ _ _ i hi

/-- Witness for C3 at `n = 7` archives (35 mod 7 = 0) for the inner
hypothesis, exercising the length and per-archive characterisation. -/
theorem c3_budget_partition_witness :
    (1 ≤ (7 : ℕ)) ∧
    ((componentBudgets componentsBudget 7).length = 7 ∧
      ∀ i, i < 7 →
        (componentBudgets componentsBudget 7).getD i 0
          = componentsBudget / 7 + if i < componentsBudget % 7 then 1 else 0) :=
  ⟨by norm_num, (c3_budget_partition 7).2.2 (by norm_num)⟩

/-! ### C7: getSdkFilename (sdkUtils.ts lines 649-679) -/

structure SdkEntry where
  version : String
  api : String
deriving DecidableEq

/-- `ALL_SDKS` (sdkUtils.ts lines 378-387). -/
def ALL_SDKS : List SdkEntry :=
  [⟨"4.0", "10"⟩, ⟨"4.1", "11"⟩, ⟨"5.0.0", "12"⟩, ⟨"5.0.1", "13"⟩,
   ⟨"5.0.2", "14"⟩, ⟨"5.0.3", "15"⟩, ⟨"5.1.0", "18"⟩, ⟨"6.0", "20"⟩]

structure SdkFilenameInfo where
  filename : String
  osFolder : String
  strip : ℕ
deriving DecidableEq

/-- `getSdkFilename` (sdkUtils.ts lines 649-679) as a function of
`os.platform()`, `os.arch()` and the optional version. The default
`version || ALL_SDKS[ALL_SDKS.length - 1].version` treats both a missing and
an empty-string version as "use the latest". An unsupported platform throws. -/
def getSdkFilename (platform arch : String) (version : Option String) :
    Except String SdkFilenameInfo :=
  let latest := ((ALL_SDKS.getD (ALL_SDKS.length - 1) ⟨"", ""⟩).version)
  let v := match version with
    | some s => if s = "" then latest else s
    | none => latest
  if platform = "linux" then
    .ok ⟨"ohos-sdk-windows_linux-public.tar.gz", "linux",
      if v = "5.0.0" ∨ v = "5.0.1" ∨ v = "6.0" then 0 else 1⟩
  else if platform = "darwin" then
    if arch = "arm64" then .ok ⟨"L2-SDK-MAC-M1-PUBLIC.tar.gz", "darwin", 3⟩
    else .ok ⟨"ohos-sdk-mac-public.tar.gz", "darwin", 3⟩
  else if platform = "win32" then
    .ok ⟨"ohos-sdk-windows_linux-public.tar.gz", "windows",
      if v = "5.0.0" ∨ v = "5.0.1" ∨ v = "6.0" then 0 else 1⟩
  else .error "Unsupported OS"

/-- The strip-component table exactly as the spec states it: on Linux and
Windows every version strips 1 leading path component except `5.0.0`, `5.0.1`
and `6.0`, which strip 0. -/
def specStripLinuxWindows (v : String) : ℕ :=
  if v = "5.0.0" ∨ v = "5.0.1" ∨ v = "6.0" then 0 else 1

/-- C7: `getSdkFilename` implements the spec's strip table and archive names:
for every (non-empty) version string, Linux and Windows get
`ohos-sdk-windows_linux-public.tar.gz` with the strip count of the table, and
macOS always strips 3, with `L2-SDK-MAC-M1-PUBLIC.tar.gz` on arm64 and
`ohos-sdk-mac-public.tar.gz` on every other architecture. -/
theorem c7_strip_table (v arch : String) (hv : v ≠ "") :
    getSdkFilename "linux" arch (some v)
      = .ok ⟨"ohos-sdk-windows_linux-public.tar.gz", "linux", specStripLinuxWindows v⟩ ∧
    getSdkFilename "win32" arch (some v)
      = .ok ⟨"ohos-sdk-windows_linux-public.tar.gz", "windows", specStripLinuxWindows v⟩ ∧
    getSdkFilename "darwin" "arm64" (some v)
      = .ok ⟨"L2-SDK-MAC-M1-PUBLIC.tar.gz", "darwin", 3⟩ ∧
    (arch ≠ "arm64" →
      getSdkFilename "darwin" arch (some v)
        = .ok ⟨"ohos-sdk-mac-public.tar.gz", "darwin", 3⟩) := by
  unfold getSdkFilename specStripLinuxWindows
  dsimp only
  refine ⟨?_, ?_, ?_, ?_⟩
  · rw [if_neg hv, if_pos rfl]
  · rw [if_neg hv, if_neg (by decide), if_neg (by decide), if_pos rfl]
  · rw [if_neg hv, if_neg (by decide), if_pos rfl, if_pos rfl]
  · intro ha
    rw [if_neg hv, if_neg (by decide), if_pos rfl, if_neg ha]

/-- Witness for C7 at version `5.0.0` and architecture `x64`. -/
theorem c7_strip_table_witness :
    ("5.0.0" ≠ "") ∧
    (getSdkFilename "linux" "x64" (some "5.0.0")
      = .ok ⟨"ohos-sdk-windows_linux-public.tar.gz", "linux", specStripLinuxWindows "5.0.0"⟩ ∧
    getSdkFilename "win32" "x64" (some "5.0.0")
      = .ok ⟨"ohos-sdk-windows_linux-public.tar.gz", "windows", specStripLinuxWindows "5.0.0"⟩ ∧
    getSdkFilename "darwin" "arm64" (some "5.0.0")
      = .ok ⟨"L2-SDK-MAC-M1-PUBLIC.tar.gz", "darwin", 3⟩ ∧
    ("x64" ≠ "arm64" →
      getSdkFilename "darwin" "x64" (some "5.0.0")
        = .ok ⟨"ohos-sdk-mac-public.tar.gz", "darwin", 3⟩)) :=
  ⟨by decide, c7_strip_table "5.0.0" "x64" (by decide)⟩

/-! ### C8: verifySha256 (sdkUtils.ts lines 608-620) -/

/-- The characters matched by the JavaScript regex `\s` that can occur in an
ASCII checksum sidecar file (space, tab, newline, carriage return, vertical
tab, form feed). -/
def jsIsSpace (c : Char) : Bool :=
  c = ' ' || c = '\t' || c = '\n' || c = '\r' || c = '\u000B' || c = '\u000C'

/-- `fs.readFileSync(sha256Path, 'utf8').split(/\s+/)[0]` (sdkUtils.ts line
609): the first element of a `\s+` split is the maximal leading run of
non-whitespace characters (empty if the file starts with whitespace). -/
def firstToken (s : List Char) : List Char := s.takeWhile (fun c => !jsIsSpace c)

/-- `SHA256 mismatch: expected ${expected}, got ${actual}` (sdkUtils.ts line 618). -/
def mismatchMsg (expected actual : List Char) : List Char :=
  (String.data "SHA256 mismatch: expected ") ++ expected ++ (String.data ", got ") ++ actual

/-- `verifySha256` (sdkUtils.ts lines 608-620), given the lowercase hex digest
`actualHex` computed by streaming the target file through the crypto library's
SHA-256, and the sidecar file contents: resolves when the digest equals the
sidecar's first whitespace-delimited token, otherwise throws the mismatch
error naming both digests. -/
def verifySha256 (actualHex sidecar : List Char) : Except (List Char) Unit :=
  if actualHex = firstToken sidecar then .ok ()
  else .error (mismatchMsg (firstToken sidecar) actualHex)

theorem takeWhile_all {α : Type} (p : α → Bool) (a : List α)
    (h : ∀ c ∈ a, p c = true) : a.takeWhile p = a := by
  induction a with
  | nil => simp
  | cons y ys ih =>
    rw [List.takeWhile_cons, if_pos (h y (by simp))]
    rw [ih (fun c hc => h c (by simp [hc]))]

theorem takeWhile_append_stop {α : Type} (p : α → Bool) (a : List α) (x : α)
    (rest : List α) (ha : ∀ c ∈ a, p c = true) (hx : p x = false) :
    (a ++ x :: rest).takeWhile p = a := by
  induction a with
  | nil =>
    simp only [List.nil_append, List.takeWhile_cons, hx]
    simp
  | cons y ys ih =>
    simp only [List.cons_append, List.takeWhile_cons, ha y (by simp)]
    rw [ih (fun c hc => ha c (by simp [hc]))]
    simp

/-- C8: `verifySha256` takes the first whitespace-delimited token of the
sidecar as the expected digest and compares it with the computed hex digest:
it resolves when they agree — in particular when the sidecar contains the
file's own digest, alone or followed by whitespace and a filename — and
otherwise throws an error whose message names both the expected and the
actual digest strings. -/
theorem c8_verify_sha256 (digest other rest : List Char)
    (hd : ∀ c ∈ digest, jsIsSpace c = false)
    (ho : ∀ c ∈ other, jsIsSpace c = false) :
    verifySha256 digest (digest ++ ' ' :: rest) = .ok () ∧
    verifySha256 digest digest = .ok () ∧
    (other ≠ digest →
      verifySha256 digest (other ++ ' ' :: rest) = .error (mismatchMsg other digest) ∧
      (∃ pre post, mismatchMsg other digest = pre ++ other ++ post) ∧
      (∃ pre post, mismatchMsg other digest = pre ++ digest ++ post)) := by
  have hfd : firstToken (digest ++ ' ' :: rest) = digest := by
    apply takeWhile_append_stop
    · intro c hc
      simp [hd c hc]
    · simp [jsIsSpace]
  have hfo : firstToken (other ++ ' ' :: rest) = other := by
    apply takeWhile_append_stop
    · intro c hc
      simp [ho c hc]
    · simp [jsIsSpace]
  have hfs : firstToken digest = digest := by
    apply takeWhile_all
    intro c hc
    simp [hd c hc]
  refine ⟨?_, ?_, ?_⟩
  · unfold verifySha256
    rw [hfd, if_pos rfl]
  · unfold verifySha256
    rw [hfs, if_pos rfl]
  · intro hne
    refine ⟨?_, ⟨String.data "SHA256 mismatch: expected ",
        String.data ", got " ++ digest, by simp [mismatchMsg]⟩,
      ⟨String.data "SHA256 mismatch: expected " ++ other ++ String.data ", got ",
        [], by simp [mismatchMsg]⟩⟩
    unfold verifySha256
    rw [hfo, if_neg (fun h => hne (h.symm))]

/-- Witness for C8 with digest `"ab"`, a sidecar carrying the wrong digest
`"cd"`, and trailing filename text. -/
theorem c8_verify_sha256_witness :
    ((∀ c ∈ String.data "ab", jsIsSpace c = false) ∧
      (∀ c ∈ String.data "cd", jsIsSpace c = false)) ∧
    (verifySha256 (String.data "ab") (String.data "ab" ++ ' ' :: String.data "f.tar.gz") = .ok () ∧
    verifySha256 (String.data "ab") (String.data "ab") = .ok () ∧
    (String.data "cd" ≠ String.data "ab" →
      verifySha256 (String.data "ab") (String.data "cd" ++ ' ' :: String.data "f.tar.gz")
        = .error (mismatchMsg (String.data "cd") (String.data "ab")) ∧
      (∃ pre post, mismatchMsg (String.data "cd") (String.data "ab") = pre ++ String.data "cd" ++ post) ∧
      (∃ pre post, mismatchMsg (String.data "cd") (String.data "ab") = pre ++ String.data "ab" ++ post))) :=
  ⟨⟨by decide, by decide⟩,
    c8_verify_sha256 (String.data "ab") (String.data "cd") (String.data "f.tar.gz")
      (by decide) (by decide)⟩

/-! ### C4 and C5: downloadFile failure and cancellation paths -/

/-- C4, counterexample: on a network-level error (the request's 'error'
event), `downloadFile` deletes the partial destination file —
`fs.unlink(dest, () => {})` at sdkUtils.ts line 582 — while the claim states
the file is closed without deleting in exactly this case. -/
theorem c4_counterexample :
    (runDownload "https://example.org/sdk.tar.gz" 0 100
        (.reqError "read ECONNRESET")).fileDeleted = true ∧
    (runDownload "https://example.org/sdk.tar.gz" 0 100
        (.reqError "read ECONNRESET")).fileClosed = true ∧
    (runDownload "https://example.org/sdk.tar.gz" 0 100
        (.reqError "read ECONNRESET")).outcome = .error "read ECONNRESET" :=
  ⟨rfl, rfl, rfl⟩

/-- C4 (amended): on a non-2xx response status (indeed on any status other
than 200) `downloadFile` destroys the response, closes and deletes the partial
destination file, and rejects with an error naming the URL and the status
code; on a network-level error it closes the destination file, also deletes
the partial file, and propagates the underlying error. The partial file is
thus deleted on every failure path that created it, not only the non-2xx
one. -/
theorem c4_failure_cleanup (url msg : String) (start range : ℚ)
    (status total : ℕ) (chunks : List ℕ) (abortAfter : Option ℕ)
    (hst : ¬ (200 ≤ status ∧ status < 300)) :
    runDownload url start range (.response status total chunks abortAfter)
      = ⟨.error (statusMsg url status), true, true, true, true, []⟩ ∧
    runDownload url start range (.reqError msg)
      = ⟨.error msg, true, true, true, false, []⟩ := by
  constructor
  · have h200 : status ≠ 200 := by omega
    simp [runDownload, h200]
  · rfl

/-- Witness for C4 (amended) with a 404 response and a DNS failure. -/
theorem c4_failure_cleanup_witness :
    (¬ (200 ≤ (404 : ℕ) ∧ (404 : ℕ) < 300)) ∧
    (runDownload "https://example.org/f" 0 100 (.response 404 7 [3] none)
      = ⟨.error (statusMsg "https://example.org/f" 404), true, true, true, true, []⟩ ∧
    runDownload "https://example.org/f" 0 100 (.reqError "getaddrinfo ENOTFOUND")
      = ⟨.error "getaddrinfo ENOTFOUND", true, true, true, false, []⟩) :=
  ⟨by omega, c4_failure_cleanup "https://example.org/f" "getaddrinfo ENOTFOUND"
    0 100 404 7 [3] none (by omega)⟩

/-- C5: cancellation handling of `downloadFile`. If the signal is already set
before the request starts, the call rejects with the cancellation error before
the destination file is even created, so nothing is left at the destination
path. If the signal fires during streaming, the in-flight response is
destroyed, the file handle closed, the partial destination file deleted, and
the call rejects with the cancellation error. The cancellation error message
`Download cancelled` is distinct from every non-200 status error, distinct
from any propagated network error whose own message differs from it, and does
not occur on the success path — so callers can tell cancellation apart from
the other failure kinds. -/
theorem c5_cancellation_cleanup (url msg : String) (start range : ℚ)
    (total k status : ℕ) (chunks : List ℕ) :
    ((runDownload url start range .preAborted).outcome = .error cancelMsg ∧
      (runDownload url start range .preAborted).fileCreated = false) ∧
    ((runDownload url start range (.response 200 total chunks (some k))).outcome
        = .error cancelMsg ∧
      (runDownload url start range (.response 200 total chunks (some k))).respDestroyed = true ∧
      (runDownload url start range (.response 200 total chunks (some k))).fileClosed = true ∧
      (runDownload url start range (.response 200 total chunks (some k))).fileDeleted = true) ∧
    statusMsg url status ≠ cancelMsg ∧
    (msg ≠ cancelMsg →
      (runDownload url start range (.reqError msg)).outcome ≠ .error cancelMsg) ∧
    (runDownload url start range (.response 200 total chunks none)).outcome = .ok () := by
  refine ⟨⟨rfl, rfl⟩, ⟨?_, ?_, ?_, ?_⟩, ?_, ?_, ?_⟩
  · simp [runDownload]
  · simp [runDownload]
  · simp [runDownload]
  · simp [runDownload]
  · intro h
    have h2 : (statusMsg url status).data.head? = cancelMsg.data.head? :=
      congrArg (fun s => s.data.head?) h
    have h3 : (statusMsg url status).data.head? = some 'F' := rfl
    have h4 : cancelMsg.data.head? = some 'D' := rfl
    rw [h3, h4] at h2
    exact absurd h2 (by decide)
  · intro hmsg heq
    have h0 : (runDownload url start range (.reqError msg)).outcome = .error msg := rfl
    rw [h0] at heq
    exact hmsg (by injection heq)
  · simp [runDownload]

/-- Witness for C5 at concrete inputs: a mid-stream abort after one chunk, a
404 status for distinctness, and an `ECONNRESET` network error. -/
theorem c5_cancellation_cleanup_witness :
    ("read ECONNRESET" ≠ cancelMsg) ∧
    (((runDownload "https://example.org/f" 0 100 .preAborted).outcome = .error cancelMsg ∧
      (runDownload "https://example.org/f" 0 100 .preAborted).fileCreated = false) ∧
    ((runDownload "https://example.org/f" 0 100 (.response 200 8 [4, 4] (some 1))).outcome
        = .error cancelMsg ∧
      (runDownload "https://example.org/f" 0 100 (.response 200 8 [4, 4] (some 1))).respDestroyed = true ∧
      (runDownload "https://example.org/f" 0 100 (.response 200 8 [4, 4] (some 1))).fileClosed = true ∧
      (runDownload "https://example.org/f" 0 100 (.response 200 8 [4, 4] (some 1))).fileDeleted = true) ∧
    statusMsg "https://example.org/f" 404 ≠ cancelMsg ∧
    ("read ECONNRESET" ≠ cancelMsg →
      (runDownload "https://example.org/f" 0 100 (.reqError "read ECONNRESET")).outcome
        ≠ .error cancelMsg) ∧
    (runDownload "https://example.org/f" 0 100 (.response 200 8 [4, 4] none)).outcome = .ok ()) :=
  ⟨by decide, c5_cancellation_cleanup "https://example.org/f" "read ECONNRESET"
    0 100 8 1 404 [4, 4]⟩

/-! ### C10: zip permission restoration (sdkUtils.ts lines 53-80) -/

/-- A zip central-directory entry as seen by the extraction loop: its type
(`file.type === 'Directory'`) and its 32-bit external-attributes field. -/
structure ZipEntry where
  isDirectory : Bool
  externalFileAttributes : ℕ

/-- `const attr = file.externalFileAttributes >>> 16` (sdkUtils.ts line 72):
the JavaScript unsigned right shift first converts to a 32-bit unsigned
integer, then shifts out the low 16 bits. -/
def attrHigh16 (e : ZipEntry) : ℕ := e.externalFileAttributes % 2 ^ 32 / 2 ^ 16

/-- The permission-restore chmod performed for one extracted entry, if any
(sdkUtils.ts lines 57-79): directories are only created; for a file entry the
chmod runs only when `attr > 0`, with mode `attr & 0o777`. -/
def chmodMode (e : ZipEntry) : Option ℕ :=
  if e.isDirectory then none
  else if 0 < attrHigh16 e then some (attrHigh16 e &&& 0o777) else none

/-- C10: during extraction a chmod is attempted only for file entries (never
directories) whose external-attributes field has nonzero high 16 bits; the
mode applied is the attribute's high half masked to the nine permission bits
`0o777`, hence always below `0o1000`, so setuid, setgid and sticky bits are
never applied; entries with a zero attribute field get no chmod at all and
keep the permissions the freshly created file was given. -/
theorem c10_chmod_policy (e : ZipEntry) :
    (e.isDirectory = true → chmodMode e = none) ∧
    (attrHigh16 e = 0 → chmodMode e = none) ∧
    (∀ m, chmodMode e = some m →
      e.isDirectory = false ∧ 0 < attrHigh16 e ∧
        m = attrHigh16 e &&& 0o777 ∧ m < 0o1000) := by
  refine ⟨?_, ?_, ?_⟩
  · intro h
    unfold chmodMode
    rw [if_pos h]
  · intro h
    unfold chmodMode
    by_cases hd : e.isDirectory = true
    · rw [if_pos hd]
    · rw [if_neg hd, if_neg (by omega)]
  · intro m hm
    unfold chmodMode at hm
    by_cases hd : e.isDirectory = true
    · rw [if_pos hd] at hm
      cases hm
    · rw [if_neg hd] at hm
      by_cases hp : 0 < attrHigh16 e
      · rw [if_pos hp] at hm
        have hm2 : attrHigh16 e &&& 0o777 = m := by injection hm
        have hle : attrHigh16 e &&& 0o777 ≤ 0o777 := Nat.and_le_right
        exact ⟨by simpa using hd, hp, hm2.symm, by omega⟩
      · rw [if_neg hp] at hm
        cases hm

/-- Witness for C10 at a file entry whose attribute high half is the Unix
mode `0o100755` (a regular `rwxr-xr-x` file): the chmod mode is `0o755`. -/
theorem c10_chmod_policy_witness :
    (chmodMode ⟨false, 0o100755 * 2 ^ 16 + 42⟩ = some 0o755) ∧
    (ZipEntry.isDirectory ⟨false, 0o100755 * 2 ^ 16 + 42⟩ = false ∧
      0 < attrHigh16 ⟨false, 0o100755 * 2 ^ 16 + 42⟩ ∧
      (0o755 : ℕ) = attrHigh16 ⟨false, 0o100755 * 2 ^ 16 + 42⟩ &&& 0o777 ∧
      (0o755 : ℕ) < 0o1000) :=
  ⟨by decide, (c10_chmod_policy ⟨false, 0o100755 * 2 ^ 16 + 42⟩).2.2 0o755 (by decide)⟩

/-! ### C9: temp-workspace cleanup in the three install orchestrators -/

/-- One `downloadAndInstallSdk` run (sdkUtils.ts lines 697-803), with each
fallible filesystem/network sub-operation represented by its outcome and each
cancellation checkpoint by a flag. `mkExtractDir` (line 714) and
`mkInstallParent` (line 717) run after the temp dir is created but BEFORE the
`try` block; everything from the archive download on (lines 719-796) runs
inside the `try`. -/
structure SdkRunEnv where
  mkExtractDir : Except String Unit
  mkInstallParent : Except String Unit
  dlArchive : Except String Unit
  dlChecksum : Except String Unit
  verifyStep : Except String Unit
  abortAfterVerify : Bool
  extractTar : Except String Unit
  abortAfterExtract : Bool
  listZips : Except String Unit
  components : List (Bool × Except String Unit)
  osPathExists : Bool
  relocate : Except String Unit

/-- The body of `downloadAndInstallSdk`'s `try` block (sdkUtils.ts lines
719-796): download archive and checksum, verify, cancellation checkpoint,
extract tarball, checkpoint, list component zips, per-component checkpoint
and extraction, assert the OS folder exists, then relocate into place. -/
def sdkBody (env : SdkRunEnv) : Except String Unit := do
  env.dlArchive
  env.dlChecksum
  env.verifyStep
  if env.abortAfterVerify then throw "Download cancelled"
  env.extractTar
  if env.abortAfterExtract then throw "Download cancelled"
  env.listZips
  env.components.forM (fun step => do
    if step.1 then throw "Download cancelled"
    step.2)
  if env.osPathExists then env.relocate
  else throw "Expected folder not found in extracted SDK."

/-- `downloadAndInstallSdk` (sdkUtils.ts lines 697-803): the two directory
creations between `mkdtempSync` and the `try` block run unprotected; then the
`try` body runs, and both the success path (line 794) and the `catch` (line
800, rethrowing) remove the temp workspace. Returns the outcome and whether
the temp workspace was removed. -/
def downloadAndInstallSdk (env : SdkRunEnv) : Except String Unit × Bool :=
  match env.mkExtractDir with
  | .error e => (.error e, false)
  | .ok _ =>
    match env.mkInstallParent with
    | .error e => (.error e, false)
    | .ok _ =>
      match sdkBody env with
      | .ok _ => (.ok (), true)
      | .error e => (.error e, true)

/-- One `installCmdTools` run with a configured URL (sdkUtils.ts lines
886-946): after `mkdtempSync` (line 902) only path joins happen before the
`try` (line 906); the body downloads the zip, extracts it, and installs the
files (locate source dir, copy/rename, chmod bin). -/
structure CmdToolsRunEnv where
  dlZip : Except String Unit
  extractZip : Except String Unit
  installFiles : Except String Unit

def cmdToolsBody (env : CmdToolsRunEnv) : Except String Unit := do
  env.dlZip
  env.extractZip
  env.installFiles

/-- `installCmdTools` with a configured URL (sdkUtils.ts lines 902-945):
success path removes the temp dir (line 940), the `catch` removes it and
rethrows (lines 942-945). -/
def installCmdTools (env : CmdToolsRunEnv) : Except String Unit × Bool :=
  match cmdToolsBody env with
  | .ok _ => (.ok (), true)
  | .error e => (.error e, true)

/-- One `installEmulator` run (sdkUtils.ts lines 1024-1061): after
`mkdtempSync` (line 1035) only a path join happens before the `try` (line
1038); the body creates the emulator dir, downloads the zip, extracts it,
and chmods `run.sh`. -/
structure EmulatorRunEnv where
  mkEmulatorDir : Except String Unit
  dlZip : Except String Unit
  extractZip : Except String Unit
  chmodRunSh : Except String Unit

def emulatorBody (env : EmulatorRunEnv) : Except String Unit := do
  env.mkEmulatorDir
  env.dlZip
  env.extractZip
  env.chmodRunSh

/-- `installEmulator` (sdkUtils.ts lines 1024-1061): success path removes the
temp dir (line 1055), the `catch` removes it and rethrows (lines 1057-1060). -/
def installEmulator (env : EmulatorRunEnv) : Except String Unit × Bool :=
  match emulatorBody env with
  | .ok _ => (.ok (), true)
  | .error e => (.error e, true)

/-- C9, counterexample: in `downloadAndInstallSdk` the call
`fs.mkdirSync(path.dirname(sdkInstallDir), { recursive: true })` (sdkUtils.ts
line 717) runs after the temp workspace is created but before the `try`
block; if it throws (for example `EACCES` on the SDK root) the orchestrator
rethrows without removing the temp workspace, so the cleanup does not run on
this exit path. -/
theorem c9_counterexample :
    downloadAndInstallSdk
        ⟨.ok (), .error "EACCES: permission denied, mkdir", .ok (), .ok (), .ok (),
          false, .ok (), false, .ok (), [], true, .ok ()⟩
      = (.error "EACCES: permission denied, mkdir", false) := rfl

/-- C9 (amended): the temp workspace is removed, and the body's outcome
passed through, on every exit path that reaches the orchestrator's `try`
block: for `downloadAndInstallSdk` on every run in which the two unprotected
directory creations between temp-workspace creation and the `try` block
succeed, and for `installCmdTools` (with a configured URL) and
`installEmulator` unconditionally — success, any thrown error, and
cancellation alike. -/
theorem c9_cleanup_on_exit (env : SdkRunEnv) (env2 : CmdToolsRunEnv)
    (env3 : EmulatorRunEnv)
    (h1 : env.mkExtractDir = .ok ()) (h2 : env.mkInstallParent = .ok ()) :
    ((downloadAndInstallSdk env).2 = true ∧
      (downloadAndInstallSdk env).1 = sdkBody env) ∧
    ((installCmdTools env2).2 = true ∧ (installCmdTools env2).1 = cmdToolsBody env2) ∧
    ((installEmulator env3).2 = true ∧ (installEmulator env3).1 = emulatorBody env3) := by
  refine ⟨?_, ?_, ?_⟩
  · unfold downloadAndInstallSdk
    rw [h1, h2]
    cases hb : sdkBody env with
    | ok a => cases a; exact ⟨rfl, rfl⟩
    | error e => exact ⟨rfl, rfl⟩
  · unfold installCmdTools
    cases hb : cmdToolsBody env2 with
    | ok a => cases a; exact ⟨rfl, rfl⟩
    | error e => exact ⟨rfl, rfl⟩
  · unfold installEmulator
    cases hb : emulatorBody env3 with
    | ok a => cases a; exact ⟨rfl, rfl⟩
    | error e => exact ⟨rfl, rfl⟩

/-- Witness for C9 (amended): a run whose checksum verification fails, whose
command-tools download is cancelled, and whose emulator install succeeds. -/
theorem c9_cleanup_on_exit_witness :
    ((SdkRunEnv.mk (.ok ()) (.ok ()) (.ok ()) (.ok ()) (.error "SHA256 mismatch")
        false (.ok ()) false (.ok ()) [] true (.ok ())).mkExtractDir = .ok () ∧
      (SdkRunEnv.mk (.ok ()) (.ok ()) (.ok ()) (.ok ()) (.error "SHA256 mismatch")
        false (.ok ()) false (.ok ()) [] true (.ok ())).mkInstallParent = .ok ()) ∧
    (((downloadAndInstallSdk (SdkRunEnv.mk (.ok ()) (.ok ()) (.ok ()) (.ok ())
          (.error "SHA256 mismatch") false (.ok ()) false (.ok ()) [] true (.ok ()))).2 = true ∧
      (downloadAndInstallSdk (SdkRunEnv.mk (.ok ()) (.ok ()) (.ok ()) (.ok ())
          (.error "SHA256 mismatch") false (.ok ()) false (.ok ()) [] true (.ok ()))).1
        = sdkBody (SdkRunEnv.mk (.ok ()) (.ok ()) (.ok ()) (.ok ())
          (.error "SHA256 mismatch") false (.ok ()) false (.ok ()) [] true (.ok ()))) ∧
    ((installCmdTools ⟨.error "Download cancelled", .ok (), .ok ()⟩).2 = true ∧
      (installCmdTools ⟨.error "Download cancelled", .ok (), .ok ()⟩).1
        = cmdToolsBody ⟨.error "Download cancelled", .ok (), .ok ()⟩) ∧
    ((installEmulator ⟨.ok (), .ok (), .ok (), .ok ()⟩).2 = true ∧
      (installEmulator ⟨.ok (), .ok (), .ok (), .ok ()⟩).1
        = emulatorBody ⟨.ok (), .ok (), .ok (), .ok ()⟩)) :=
  ⟨⟨rfl, rfl⟩,
    c9_cleanup_on_exit
      (SdkRunEnv.mk (.ok ()) (.ok ()) (.ok ()) (.ok ()) (.error "SHA256 mismatch")
        false (.ok ()) false (.ok ()) [] true (.ok ()))
      ⟨.error "Download cancelled", .ok (), .ok ()⟩
      ⟨.ok (), .ok (), .ok (), .ok ()⟩ rfl rfl⟩
